import Mathlib

/-!
# Verification of the DCT MCP server core

A shallow embedding, in Lean 4, of the core of the `dxi-mcp-server`
repository:

* the confirmation/risk policy engine
  (`src/dct_mcp_server/config/loader.py`: `_path_matches`,
  `get_confirmation_for_operation`),
* the declarative catalog loader with inheritance
  (`src/dct_mcp_server/config/loader.py`: `load_toolset_grouped_apis`),
* the runtime synthesized grouped tool
  (`src/dct_mcp_server/tools/core/tool_factory.py`:
  `_create_grouped_tool_function` / `grouped_tool`),
* one statically generated unified tool
  (`src/dct_mcp_server/tools/job_endpoints_tool.py`: `job_tool`),
* the runtime registry state machine
  (`src/dct_mcp_server/tools/core/meta_tools.py`: `enable_toolset`,
  `disable_toolset`, `_register_toolset_tools`,
  `_disable_current_toolset_internal`).

Python strings are modelled as Lean `String` (a structure over
`List Char`); the handful of Python `str` methods the code uses
(`strip`, `split`, `startswith`, `replace`, `lower`, containment) are
re-implemented below on `List Char` so that every definition evaluates
inside the kernel.  Python `dict`s are modelled as insertion-ordered
association lists, which is faithful to CPython's ordered dictionaries.
-/

deriving instance DecidableEq for Except

/-! ## Models of the Python `str` methods used by the code -/

/-- The character `{` (written via its code point). -/
def lbrace : Char := Char.ofNat 123

/-- The character `}` (written via its code point). -/
def rbrace : Char := Char.ofNat 125

/-- `isPrefixL t s`: is `t` a prefix of `s`?  (Boolean, by `==` on chars.) -/
def isPrefixL : List Char → List Char → Bool
  | [], _ => true
  | _ :: _, [] => false
  | t :: ts, c :: cs => t == c && isPrefixL ts cs

/-- Model of Python `s.strip()`: drop whitespace from both ends. -/
def pyTrim (s : String) : String :=
  ⟨((s.data.dropWhile Char.isWhitespace).reverse.dropWhile Char.isWhitespace).reverse⟩

/-- Model of Python `s.startswith(p)`. -/
def pyStartsWith (s p : String) : Bool := isPrefixL p.data s.data

/-- Model of Python `c in s` for a single character `c`. -/
def pyContainsChar (s : String) (c : Char) : Bool := s.data.any (fun d => d == c)

/-- Model of Python `pat in s` for a substring `pat`. -/
def hasInfixL (pat : List Char) : List Char → Bool
  | [] => isPrefixL pat []
  | c :: cs => isPrefixL pat (c :: cs) || hasInfixL pat cs

/-- Model of Python `pat in s` on strings. -/
def pyHasInfix (s pat : String) : Bool := hasInfixL pat.data s.data

/-- Auxiliary worker for `pySplit`.  The fuel starts at `length + 1` and
each step consumes at least one character (the separators used by the
code — `"|"`, `":"`, `" - "` — are nonempty), so the fuel never runs out. -/
def splitOnAux (sep : List Char) : Nat → List Char → List Char → List (List Char)
  | 0, acc, cs => [acc.reverse ++ cs]
  | _ + 1, acc, [] => [acc.reverse]
  | fuel + 1, acc, c :: cs =>
    if isPrefixL sep (c :: cs) then
      acc.reverse :: splitOnAux sep fuel [] ((c :: cs).drop sep.length)
    else
      splitOnAux sep fuel (c :: acc) cs

/-- Model of Python `s.split(sep)` (all occurrences, left to right,
non-overlapping, adjacent separators produce empty fields). -/
def pySplit (s sep : String) : List String :=
  (splitOnAux sep.data (s.data.length + 1) [] s.data).map String.mk

/-- Join a list of strings with a separator; `joinSep sep (pySplit s sep) = s`.
Used to model Python's `s.split(sep, 1)[1]` as re-joining the tail of a
full split. -/
def joinSep (sep : String) : List String → String
  | [] => ""
  | [x] => x
  | x :: xs => x ++ sep ++ joinSep sep xs

/-- Auxiliary worker for `pyReplace`; fuel as in `splitOnAux` (the
targets used by the code, `"{name}"`, are nonempty). -/
def replaceAux (target repl : List Char) : Nat → List Char → List Char
  | 0, cs => cs
  | _ + 1, [] => []
  | fuel + 1, c :: cs =>
    if isPrefixL target (c :: cs) then
      repl ++ replaceAux target repl fuel ((c :: cs).drop target.length)
    else
      c :: replaceAux target repl fuel cs

/-- Model of Python `s.replace(target, repl)` (all non-overlapping
occurrences, left to right). -/
def pyReplace (s target repl : String) : String :=
  ⟨replaceAux target.data repl.data (s.data.length + 1) s.data⟩

/-- Model of Python `s.lower()` (ASCII is all that occurs here). -/
def pyToLower (s : String) : String := ⟨s.data.map Char.toLower⟩

/-- All-decimal-digit parse of a nonempty character list. -/
def digitsToNat : List Char → Option Nat
  | [] => none
  | [c] => if c.isDigit then some (c.toNat - 48) else none
  | c :: cs =>
    if c.isDigit then
      (digitsToNat cs).map (fun n => (c.toNat - 48) * 10 ^ cs.length + n)
    else none

/-- Model of Python `int(s)` for the plain decimal literals that occur in
confirmation-rule thresholds (`none` models the `ValueError` raised on
other inputs). -/
def pyToIntOpt (s : String) : Option Int :=
  match s.data with
  | '-' :: rest => (digitsToNat rest).map (fun n => -(n : Int))
  | cs => (digitsToNat cs).map (fun n => (n : Int))

/-- Code-point comparison used to model Python's `sorted` on strings. -/
def strLeL : List Char → List Char → Bool
  | [], _ => true
  | _ :: _, [] => false
  | c :: cs, d :: ds => if c.toNat = d.toNat then strLeL cs ds else decide (c.toNat < d.toNat)

/-- Lexicographic code-point `≤` on strings (Python's string ordering). -/
def pyStrLe (a b : String) : Bool := strLeL a.data b.data

/-- Insert into a sorted list of strings. -/
def sortIns (s : String) : List String → List String
  | [] => [s]
  | x :: xs => if pyStrLe s x then s :: x :: xs else x :: sortIns s xs

/-- Model of Python `sorted` on a list of strings (insertion sort;
Python's sort is stable, which agrees with this on distinct keys and is
irrelevant for equal keys). -/
def sortStrings (l : List String) : List String := l.foldr sortIns []

/-! ## Confirmation policy engine (`config/loader.py`)

`_path_matches` compiles the rule's path pattern with
`re.sub(r'\x7b[^\x7d]+\x7d', r'[^/]+', pattern)`, anchors it as
`^...$` and tests `re.match` against the request path.  We model the
compiled regex as a token list: each `{...}` placeholder (one or more
non-`}` characters between braces) becomes a `wild` token, every other
character a literal.  The rule patterns in the configuration contain no
other regex metacharacters, so literal-character matching is faithful. -/

/-- One token of a compiled rule-path pattern. -/
inductive Tok where
  | lit (c : Char)
  | wild
deriving DecidableEq

/-- Compile a rule path pattern into tokens, with fuel (`length + 1`
suffices: each step consumes at least one character).  Mirrors
`re.sub(r'\x7b[^\x7d]+\x7d', r'[^/]+', pattern)`: a `{` followed by one
or more non-`}` characters and a `}` becomes a wildcard; any other
character (including an unmatched brace) stays literal. -/
def ruleToksAux : Nat → List Char → List Tok
  | 0, _ => []
  | _ + 1, [] => []
  | fuel + 1, c :: rest =>
    if c = lbrace then
      match rest.dropWhile (fun d => !(d == rbrace)) with
      | _ :: tail =>
        if (rest.takeWhile (fun d => !(d == rbrace))).isEmpty then
          .lit c :: ruleToksAux fuel rest
        else
          .wild :: ruleToksAux fuel tail
      | [] => .lit c :: ruleToksAux fuel rest
    else
      .lit c :: ruleToksAux fuel rest

/-- Compile a rule path pattern into tokens. -/
def ruleToks (cs : List Char) : List Tok := ruleToksAux (cs.length + 1) cs

/-- Match a compiled (anchored) pattern against a path.  `wild` matches
one or more non-`/` characters, with full backtracking — exactly the
semantics of the regex `[^/]+` under `re.match` with `^...$` anchors. -/
def tokMatch : List Tok → List Char → Bool
  | [], cs => cs.isEmpty
  | _ :: _, [] => false
  | .lit c :: ts, d :: ds => c == d && tokMatch ts ds
  | .wild :: ts, d :: ds => !(d == '/') && (tokMatch ts ds || tokMatch (.wild :: ts) ds)

/-- Model of `_path_matches(path, pattern)` from `config/loader.py`. -/
def path_matches (path pattern : String) : Bool :=
  tokMatch (ruleToks pattern.data) path.data

/-- Declarative matching relation for compiled patterns, written from the
spec's words: the path fully matches the pattern with every placeholder
replaced by a nonempty run of non-slash characters. -/
inductive TokMatches : List Tok → List Char → Prop where
  | nil : TokMatches [] []
  | lit {ts cs} (c : Char) : TokMatches ts cs → TokMatches (.lit c :: ts) (c :: cs)
  | wild {ts cs} (seg : List Char) (hne : seg ≠ [])
      (hns : ∀ c ∈ seg, c ≠ '/') :
      TokMatches ts cs → TokMatches (.wild :: ts) (seg ++ cs)

/-- One manual-confirmation rule, as loaded by
`load_manual_confirmation_rules` (a `METHOD|pattern|level|message` line). -/
structure Rule where
  method : String
  path_pattern : String
  level : String
  message : String
deriving DecidableEq

/-- The classification result of `get_confirmation_for_operation`. -/
structure Confirmation where
  level : String
  message : Option String
  conditional : Bool
  threshold_days : Option Int
deriving DecidableEq

/-- The dictionary built from a matching rule (the `return` inside the
loop of `get_confirmation_for_operation`).  A `:` in the level marks a
conditional tier; the part before the colon is the tier, the part after
is parsed as an integer threshold. -/
def parseRule (r : Rule) : Confirmation :=
  let conditional := pyContainsChar r.level ':'
  { level := if conditional then (pySplit r.level ":").headD "" else r.level
    message := some r.message
    conditional := conditional
    threshold_days := if conditional then pyToIntOpt ((pySplit r.level ":").getD 1 "") else none }

/-- The default result when no rule matches. -/
def noConfirmation : Confirmation :=
  { level := "none", message := none, conditional := false, threshold_days := none }

/-- Model of `get_confirmation_for_operation(method, path)` from
`config/loader.py`, with the loaded rule list made an explicit argument
(the Python reads it from a cached configuration file).  Scans the rules
in order; a rule is skipped when its method is neither `*` nor equal to
the request method; the first rule whose path pattern also matches is
returned. -/
def get_confirmation_for_operation (rules : List Rule) (method path : String) : Confirmation :=
  match rules with
  | [] => noConfirmation
  | r :: rs =>
    if r.method != "*" && r.method != method then
      get_confirmation_for_operation rs method path
    else if path_matches path r.path_pattern then
      parseRule r
    else
      get_confirmation_for_operation rs method path

/-- The combined method-and-path test of one rule (used to state the
first-match characterisation). -/
def ruleMatches (r : Rule) (method path : String) : Bool :=
  (r.method == "*" || r.method == method) && path_matches path r.path_pattern

/-! ## Runtime-synthesized grouped tools (`tools/core/tool_factory.py`)

`_create_grouped_tool_function(tool_name, description, apis, spec)`
builds an action registry from the toolset's `(method, path, action)`
entries — classifying each action's confirmation tier once, at synthesis
time — and returns the closure `grouped_tool(action, **kwargs)`.

`kwargs` is modelled as an insertion-ordered association list from
parameter names to `Value`s; an explicit `vNone` models a caller passing
Python `None`.  The `summary`/`operation` entries of the registry feed
only the generated docstring and are omitted.  The transport call
`_dct_client.make_request(method, final_path, params, json)` is modelled
by the `transport` result constructor; the `_dct_client is None` guard
is modelled by the `clientInit` flag. -/

/-- A Python value passed in the keyword-argument bag. -/
inductive Value where
  | vStr (s : String)
  | vBool (b : Bool)
  | vInt (n : Int)
  | vNone
deriving DecidableEq

/-- Python truthiness of a `Value`. -/
def Value.truthy : Value → Bool
  | .vStr s => !(s == "")
  | .vBool b => b
  | .vInt n => !(n == 0)
  | .vNone => false

/-- Python `str(v)`. -/
def Value.toStr : Value → String
  | .vStr s => s
  | .vBool true => "True"
  | .vBool false => "False"
  | .vInt n => toString n
  | .vNone => "None"

/-- One `METHOD|path|action` entry of a toolset file. -/
structure Api where
  method : String
  path : String
  action : String
deriving DecidableEq

/-- One entry of the synthesized tool's action registry. -/
structure ActionInfo where
  method : String
  path : String
  confirmation : Confirmation
deriving DecidableEq

/-- `d[k] = v` on an insertion-ordered dictionary: replace in place if
the key exists, else append. -/
def insertOverride : List (String × ActionInfo) → String → ActionInfo → List (String × ActionInfo)
  | [], k, v => [(k, v)]
  | (k', v') :: rest, k, v =>
    if k' == k then (k, v) :: rest else (k', v') :: insertOverride rest k v

/-- First-match association-list lookup (Python `dict` access). -/
def lookupKV {β : Type} : List (String × β) → String → Option β
  | [], _ => none
  | (k', v) :: rest, k => if k' == k then some v else lookupKV rest k

/-- `kwargs.pop(key, None)`: the removed value (if any) and the remaining
bag. -/
def popKw : List (String × Value) → String → Option Value × List (String × Value)
  | [], _ => (none, [])
  | (k', v) :: rest, k =>
    if k' == k then (some v, rest)
    else
      let p := popKw rest k
      (p.1, (k', v) :: p.2)

/-- `kwargs.get(key)` / `key in kwargs`. -/
def lookupKw (kwargs : List (String × Value)) (k : String) : Option Value :=
  lookupKV kwargs k

/-- The action registry built by `_create_grouped_tool_function`: a dict
keyed by action name (a later entry with the same action name overwrites
the earlier one), each action classified by the confirmation engine on
its `(method, path)` — note the *path template* is what is classified. -/
def buildRegistryAux (rules : List Rule) :
    List (String × ActionInfo) → List Api → List (String × ActionInfo)
  | reg, [] => reg
  | reg, api :: rest =>
    buildRegistryAux rules
      (insertOverride reg api.action
        ⟨api.method, api.path, get_confirmation_for_operation rules api.method api.path⟩)
      rest

/-- The action registry (the loop of `_create_grouped_tool_function`). -/
def buildRegistry (rules : List Rule) (apis : List Api) : List (String × ActionInfo) :=
  buildRegistryAux rules [] apis

/-- The placeholder names found by `re.finditer(r'\x7b(\w+)\x7d', path)`,
in order of occurrence.  `\w` is `[A-Za-z0-9_]`; fuel as before. -/
def findPlaceholdersAux : Nat → List Char → List String
  | 0, _ => []
  | _ + 1, [] => []
  | fuel + 1, c :: rest =>
    if c = lbrace then
      match rest.dropWhile (fun d => d.isAlphanum || d == '_') with
      | d :: tail =>
        if d = rbrace && !((rest.takeWhile (fun e => e.isAlphanum || e == '_')).isEmpty) then
          String.mk (rest.takeWhile (fun e => e.isAlphanum || e == '_')) :: findPlaceholdersAux fuel tail
        else
          findPlaceholdersAux fuel rest
      | [] => findPlaceholdersAux fuel rest
    else
      findPlaceholdersAux fuel rest

/-- Placeholder names of a path template, in order. -/
def findPlaceholders (path : String) : List String :=
  findPlaceholdersAux (path.data.length + 1) path.data

/-- The JSON body of a transport request. -/
inductive JsonBody where
  | filter (expr : Value)
  | explicit (v : Value)
deriving DecidableEq

/-- The observable outcome of one `grouped_tool` invocation. -/
inductive ToolResult where
  | clientError (msg : String)
  | unknownAction (msg : String) (available : List String) (hint : String)
  | confirmationRequired (level : String) (message : Option String)
      (act tool apiPath instructions : String)
  | transport (method finalPath : String) (queryParams : Option (List (String × Value)))
      (jsonBody : Option JsonBody)
deriving DecidableEq

/-- Substitute path parameters: for each `\x7b(\w+)\x7d` placeholder of
the *original* template, if the name is in the bag, replace all its
occurrences in the evolving path with `str(value)` and pop it from the
bag.  A missing name is silently left unsubstituted. -/
def substFold : List String → String × List (String × Value) → String × List (String × Value)
  | [], acc => acc
  | nm :: names, acc =>
    substFold names
      (match lookupKw acc.2 nm with
       | some v =>
         (pyReplace acc.1 (String.mk (lbrace :: nm.data ++ [rbrace])) v.toStr, (popKw acc.2 nm).2)
       | none => acc)

/-- Substitute path parameters (the loop over the placeholders of the
original template). -/
def substPath (path : String) (kwargs : List (String × Value)) :
    String × List (String × Value) :=
  substFold (findPlaceholders path) (path, kwargs)

/-- The request-building tail of `grouped_tool` (everything after the
confirmation gate): path substitution, `filter_expression` handling for
search actions, explicit `body` override, and the query-parameter
partition.  Always reaches the transport call. -/
def buildRequest (actionName : String) (info : ActionInfo)
    (kwargs : List (String × Value)) : ToolResult :=
  let sp := substPath info.path kwargs
  let pf := popKw sp.2 "filter_expression"
  let filterVal := pf.1.getD .vNone
  let jsonBody0 : Option JsonBody :=
    if filterVal.truthy && pyHasInfix (pyToLower actionName) "search" then
      some (.filter filterVal)
    else none
  let pb := popKw pf.2 "body"
  let bodyVal := pb.1.getD .vNone
  let jsonBody := if bodyVal.truthy then some (.explicit bodyVal) else jsonBody0
  let qp := pb.2.filter (fun p => !(p.2 == Value.vNone))
  .transport info.method sp.1 (if qp.isEmpty then none else some qp) jsonBody

/-- The constant `instructions` field of a confirmation response. -/
def confirmInstructions : String := "Set confirmed=True to proceed with this operation."

/-- Model of the synthesized `grouped_tool(action, **kwargs)` closure of
`_create_grouped_tool_function` in `tools/core/tool_factory.py`.  The
confirmation rule list and the group's `(method, path, action)` entries
are explicit arguments (the Python closure captures the registry built
from them). -/
def grouped_tool (rules : List Rule) (toolName : String) (apis : List Api)
    (clientInit : Bool) (action : String) (kwargs : List (String × Value)) : ToolResult :=
  let registry := buildRegistry rules apis
  let available := sortStrings (registry.map Prod.fst)
  if !clientInit then
    .clientError "DCT client not initialized"
  else
    match lookupKV registry action with
    | none =>
      .unknownAction ("Unknown action: " ++ action) available
        ("Use one of: " ++ joinSep ", " available)
    | some info =>
      if info.confirmation.level != "none" then
        let pc := popKw kwargs "confirmed"
        if !((pc.1.getD .vNone).truthy) then
          .confirmationRequired info.confirmation.level info.confirmation.message
            action toolName info.path confirmInstructions
        else
          buildRequest action info pc.2
      else
        buildRequest action info kwargs

/-! ## A statically generated unified tool (`tools/job_endpoints_tool.py`)

The repository also ships statically generated unified tools (the
output of `toolsgenerator/driver.py`).  `job_tool` is the smallest:
three actions (`search`, `get`, `abandon`), with an explicit
missing-required-parameter check before path substitution.  The
transport helper `make_api_request(method, endpoint, params, json_body)`
is modelled by the `request` constructor. -/

/-- The observable outcome of one `job_tool` invocation. -/
inductive JobResult where
  | request (method endpoint : String) (params : List (String × Value))
      (jsonBody : Option (List (String × Value)))
  | error (msg : String)
deriving DecidableEq

/-- Model of `build_params(**kwargs)`: keep the entries whose value is
not `None`. -/
def build_params (kvs : List (String × Option Value)) : List (String × Value) :=
  kvs.foldr (fun p acc => match p.2 with | some v => (p.1, v) :: acc | none => acc) []

/-- Model of the generated `job_tool` from
`tools/job_endpoints_tool.py`: `search` posts to `/jobs/search` with an
optional filter body; `get`/`abandon` require `job_id` and return a
structured missing-parameter error when it is `None`, before building
the endpoint. -/
def job_tool (action : String) (cursor : Option String) (filter_expression : Option String)
    (job_id : Option String) (limit : Option Int) (sort : Option String) : JobResult :=
  if action == "search" then
    let params := build_params
      [("limit", limit.map Value.vInt), ("cursor", cursor.map Value.vStr),
       ("sort", sort.map Value.vStr)]
    let body : List (String × Value) :=
      match filter_expression with
      | some f => if !(f == "") then [("filter_expression", .vStr f)] else []
      | none => []
    .request "POST" "/jobs/search" params (some body)
  else if action == "get" then
    match job_id with
    | none => .error "Missing required parameter: job_id for action get"
    | some j => .request "GET" ("/jobs/" ++ j) [] none
  else if action == "abandon" then
    match job_id with
    | none => .error "Missing required parameter: job_id for action abandon"
    | some j => .request "POST" ("/jobs/" ++ j ++ "/abandon") [] none
  else
    .error ("Unknown action: " ++ action ++ ". Valid actions: search, get, abandon")

/-! ## Catalog loader (`config/loader.py`: `load_toolset_grouped_apis`)

The filesystem of toolset sources is modelled as an association list
from toolset name to the list of raw lines of `<name>.txt`; `lookupFS`
models both the existence check and reading the file.  Loading recurses
into `@inherit:` parents; the recursion is fuelled (the Python
interpreter's recursion limit plays the role of the fuel, and any
sufficient fuel gives the same result on acyclic inheritance). -/

/-- Per-group data: description from the `# TOOL` header plus the member
API list, in file order. -/
structure GroupData where
  description : String
  apis : List Api
deriving DecidableEq

/-- The grouped result: an insertion-ordered dict from tool (group) name
to its data. -/
abbrev Grouped := List (String × GroupData)

/-- The toolset directory: name ↦ lines of `<name>.txt`. -/
abbrev FileSys := List (String × List String)

/-- File lookup (`(TOOLSETS_DIR / f"{name}.txt").exists()` and reading). -/
def lookupFS (fs : FileSys) (name : String) : Option (List String) :=
  lookupKV fs name

/-- Group lookup in the accumulated dict. -/
def lookupG (g : Grouped) (t : String) : Option GroupData :=
  lookupKV g t

/-- Append an API to an existing group's member list (the
`grouped[current_tool]["apis"].append(...)`); the key is always present
when this is called, so an absent key is a no-op. -/
def appendApi : Grouped → String → Api → Grouped
  | [], _, _ => []
  | (t', d) :: rest, t, api =>
    if t' == t then (t', ⟨d.description, d.apis ++ [api]⟩) :: rest
    else (t', d) :: appendApi rest t api

/-- Append a list of APIs to an existing group's member list
(`grouped[tool_name]["apis"].extend(...)`). -/
def extendApis : Grouped → String → List Api → Grouped
  | [], _, _ => []
  | (t', d) :: rest, t, apis =>
    if t' == t then (t', ⟨d.description, d.apis ++ apis⟩) :: rest
    else (t', d) :: extendApis rest t apis

/-- Merge a parent's grouped dict into the accumulator: for each parent
group in order, create the group (with the parent's description and an
empty member list) if absent, then extend its member list with the
parent's members.  No deduplication is performed. -/
def mergeParent (g : Grouped) : Grouped → Grouped
  | [] => g
  | (t, d) :: rest =>
    let g1 := if (lookupG g t).isNone then g ++ [(t, ⟨d.description, []⟩)] else g
    mergeParent (extendApis g1 t d.apis) rest

/-- Truthiness of the `current_tool` variable (Python `None` and the
empty string are both falsy). -/
def toolTruthy : Option String → Bool
  | none => false
  | some t => !(t == "")

/-- The current tool's name (only used under `toolTruthy`). -/
def toolName : Option String → String
  | none => ""
  | some t => t

/-- The line-processing loop of `load_toolset_grouped_apis`, with the
recursive load of `@inherit:` parents supplied as `load`.  State:
the accumulated grouped dict and `current_tool`.  Branches, in source
order: skip blanks; `# TOOL ...:` headers set the group context (adding
the group if its name is nonempty and new); other `#` comments are
skipped; `@inherit:` validates that the parent file exists (raising
`ValueError` otherwise) and merges the recursively loaded parent;
a `METHOD|path|action` line with at least three fields is appended to
the current group when a group context is active. -/
def processLines (fs : FileSys) (load : String → Except String Grouped) (selfName : String) :
    List String → Grouped → Option String → Except String Grouped
  | [], g, _ => .ok g
  | l :: rest, g, cur =>
    let line := pyTrim l
    if line == "" then
      processLines fs load selfName rest g cur
    else if pyStartsWith line "# TOOL" && pyContainsChar line ':' then
      let afterColon := pyTrim (joinSep ":" ((pySplit line ":").drop 1))
      let td :=
        if pyHasInfix afterColon " - " then
          let parts := pySplit afterColon " - "
          (pyTrim (parts.headD ""), pyTrim (joinSep " - " (parts.drop 1)))
        else
          (pyTrim afterColon, "")
      let g' :=
        if !(td.1 == "") && (lookupG g td.1).isNone then g ++ [(td.1, ⟨td.2, []⟩)] else g
      processLines fs load selfName rest g' (some td.1)
    else if pyStartsWith line "#" then
      processLines fs load selfName rest g cur
    else if pyStartsWith line "@inherit:" then
      let parent := pyTrim ((pySplit line ":").getD 1 "")
      if (lookupFS fs parent).isNone then
        .error ("Toolset '" ++ selfName ++ "' inherits from '" ++ parent ++
          "' but parent toolset file does not exist")
      else
        match load parent with
        | .error e => .error e
        | .ok pg => processLines fs load selfName rest (mergeParent g pg) cur
    else
      let parts := pySplit line "|"
      if decide (parts.length ≥ 3) && toolTruthy cur then
        let api : Api :=
          ⟨pyTrim (parts.getD 0 ""), pyTrim (parts.getD 1 ""), pyTrim (parts.getD 2 "")⟩
        processLines fs load selfName rest (appendApi g (toolName cur) api) cur
      else
        processLines fs load selfName rest g cur

/-- Model of `load_toolset_grouped_apis(toolset_name)` from
`config/loader.py` (the `lru_cache` is irrelevant to the value: the
function is deterministic in the file system).  Raising `ValueError` is
modelled by `Except.error`; the fuel models the interpreter's recursion
limit. -/
def load_toolset_grouped_apis (fs : FileSys) : Nat → String → Except String Grouped
  | 0 => fun _ => .error "maximum recursion depth exceeded"
  | fuel + 1 => fun name =>
    match lookupFS fs name with
    | none => .error ("Unknown toolset: " ++ name)
    | some lines => processLines fs (load_toolset_grouped_apis fs fuel) name lines [] none


/-! ## Runtime registry (`tools/core/meta_tools.py`)

Global state: `_current_toolset` (`current`), `_registered_tool_names`
(`registered`) and the host application's tool dictionary keys
(`appTools`; initially the five meta-tools).  The environment consists
of the available toolset names (`get_available_toolsets()`, a directory
scan), the loader (`generate_tools_for_toolset`'s call to
`load_toolset_grouped_apis`, whose `ValueError` is the exception caught
by `enable_toolset`), and the `_app is None` guard (`appInit`).
`_tool_inventory` is initialised from the same directory scan at
startup, so its membership test coincides with `avail` (the file set is
taken as fixed for the run).

Host effects (`app.add_tool` / deleting from the tool dict, each of
which makes the host emit a `tools/list_changed` notification) are
recorded as the returned event list of `disable_toolset`; an empty list
means no host notification. -/

/-- The registry state: `_current_toolset`, `_registered_tool_names`,
and the keys of the host app's tool dictionary. -/
structure RegState where
  current : Option String
  registered : List String
  appTools : List String
deriving DecidableEq

/-- Responses of `enable_toolset`. -/
inductive EnableResp where
  | errUnknown (available : List String)
  | errNotInit
  | errException (msg : String)
  | enabled (name : String) (toolsRegistered : Nat) (previous : Option String)
deriving DecidableEq

/-- Responses of `disable_toolset`. -/
inductive DisableResp where
  | alreadyMinimal
  | disabled (name : String) (toolsRemoved : Nat)
deriving DecidableEq

/-- Model of `_disable_current_toolset_internal`: delete every name of
`_registered_tool_names` that is present in the app's tool dict, then
clear the list.  `_current_toolset` is *not* touched here.  The second
component lists the deletions actually performed (the host-visible
removals). -/
def disableCurrentInternal (s : RegState) : RegState × List String :=
  (⟨s.current, [], s.appTools.filter (fun t => !(s.registered.contains t))⟩,
   s.registered.filter (fun t => s.appTools.contains t))

/-- Adding one key to the app tool dict (`app.add_tool`): an existing
key keeps its position (the tool object is replaced), a new key is
appended. -/
def addToolName (tools : List String) (n : String) : List String :=
  if tools.contains n then tools else tools ++ [n]

/-- Model of `_register_toolset_tools` /
`register_toolset_tools` / `generate_tools_for_toolset`: load the
grouped APIs (an `Except.error` models the `ValueError` the loader can
raise, which propagates to `enable_toolset`'s handler), skip groups
with no APIs, `add_tool` each generated tool, and record as newly
registered exactly the dict keys that were not present before
(`after_tools - before_tools`), extending `_registered_tool_names`.
Returns the new state and `len(new_tools)`. -/
def registerToolsetTools (load : String → Except String Grouped) (s : RegState)
    (name : String) : Except String (RegState × Nat) :=
  match load name with
  | .error e => .error e
  | .ok grouped =>
    let genNames := (grouped.filter (fun g => !(g.2.apis.isEmpty))).map Prod.fst
    let afterTools := genNames.foldl addToolName s.appTools
    let newTools := afterTools.filter (fun t => !(s.appTools.contains t))
    .ok (⟨s.current, s.registered ++ newTools, afterTools⟩, newTools.length)

/-- Model of the meta-tool `enable_toolset(toolset_name)`: validate the
name against the directory scan; check `_app`; if a toolset is active,
run `_disable_current_toolset_internal` first; register the new
toolset's tools; only on success set `_current_toolset`.  An exception
during registration is caught and returned as an error response — with
the state as already mutated. -/
def enable_toolset (avail : List String) (load : String → Except String Grouped)
    (appInit : Bool) (s : RegState) (name : String) : RegState × EnableResp :=
  if !(avail.contains name) then (s, .errUnknown avail)
  else if !appInit then (s, .errNotInit)
  else
    let previous := s.current
    let s1 := if s.current.isSome then (disableCurrentInternal s).1 else s
    match registerToolsetTools load s1 name with
    | .error e => (s1, .errException e)
    | .ok p => (⟨some name, p.1.registered, p.1.appTools⟩, .enabled name p.2 previous)

/-- Model of the meta-tool `disable_toolset()`: when no toolset is
active, return `already_minimal` without touching anything (and with no
host-visible removal); otherwise remove the registered tools, clear
`_current_toolset`, and report the previous count.  The third component
is the list of host-visible removals. -/
def disable_toolset (s : RegState) : RegState × DisableResp × List String :=
  match s.current with
  | none => (s, .alreadyMinimal, [])
  | some x =>
    let removedCount := s.registered.length
    let p := disableCurrentInternal s
    (⟨none, p.1.registered, p.1.appTools⟩, .disabled x removedCount, p.2)

/-- The five meta-tools registered at startup in auto mode. -/
def metaToolNames : List String :=
  ["list_available_toolsets", "get_toolset_tools", "enable_toolset", "disable_toolset",
   "check_operation_confirmation"]

/-- The states reachable from startup (`initTools` registered on the
host, no active toolset) by any sequence of `enable_toolset` /
`disable_toolset` calls. -/
inductive Reachable (initTools avail : List String)
    (load : String → Except String Grouped) (appInit : Bool) : RegState → Prop where
  | init : Reachable initTools avail load appInit ⟨none, [], initTools⟩
  | enableStep (s : RegState) (name : String) :
      Reachable initTools avail load appInit s →
      Reachable initTools avail load appInit (enable_toolset avail load appInit s name).1
  | disableStep (s : RegState) :
      Reachable initTools avail load appInit s →
      Reachable initTools avail load appInit (disable_toolset s).1

/-- The group names of the active toolset (empty when none is active or
its load fails). -/
def activeGroupNames (load : String → Except String Grouped) : Option String → List String
  | none => []
  | some x =>
    match load x with
    | .ok g => g.map Prod.fst
    | .error _ => []

/-- Membership of an API in a named group of a grouped dict. -/
def MemG (g : Grouped) (t : String) (api : Api) : Prop :=
  ∃ d, lookupG g t = some d ∧ api ∈ d.apis

/-- The registry invariant used to prove the amended claim C3:
the registered names are exactly the active toolset's group names, the
app's tool dict holds exactly the startup tools plus the registered
names, and the active name (if any) is an available toolset. -/
def RegInv (initTools avail : List String) (load : String → Except String Grouped)
    (s : RegState) : Prop :=
  (∀ n, n ∈ s.registered ↔ n ∈ activeGroupNames load s.current) ∧
  (∀ n, n ∈ s.appTools ↔ (n ∈ initTools ∨ n ∈ s.registered)) ∧
  (∀ x, s.current = some x → x ∈ avail)

/-- Grouped-dict inclusion: every group name of `g` is a group name of
`g'`, and every member of a group of `g` is a member of the same-named
group of `g'`. -/
def GroupedLe (g g' : Grouped) : Prop :=
  (∀ u, (lookupG g u).isSome → (lookupG g' u).isSome) ∧
  (∀ u api, MemG g u api → MemG g' u api)

/-! ## Concrete scenarios used by the claim instances

`fsAB` is a toolset directory in which `a` loads fine (one group `g1`
with one API) and `b` exists but fails to load (its `@inherit:` parent
`zzz` has no file).  `fsGood` is a directory where both `a` (group `g1`)
and `b` (group `g2`) load fine.  `fsDup` re-declares `a`'s only API
line inside `b` after inheriting `a`. -/

/-- Directory with a loadable `a` and a `b` whose inheritance parent is
missing. -/
def fsAB : FileSys :=
  [("a", ["# TOOL 1: g1 - G", "GET|/x|get"]), ("b", ["@inherit:zzz"])]

/-- The loader over `fsAB` (ample fuel). -/
def loadAB : String → Except String Grouped := load_toolset_grouped_apis fsAB 5

/-- The directory scan of `fsAB`. -/
def availAB : List String := ["a", "b"]

/-- The registry state after `enable_toolset("a")` from startup. -/
def stateAfterA : RegState :=
  (enable_toolset availAB loadAB true ⟨none, [], metaToolNames⟩ "a").1

/-- The registry state after `enable_toolset("a")` then
`enable_toolset("b")` (the second call fails during registration). -/
def stateAfterAB : RegState := (enable_toolset availAB loadAB true stateAfterA "b").1

/-- Directory in which both toolsets load. -/
def fsGood : FileSys :=
  [("a", ["# TOOL 1: g1 - G", "GET|/x|get"]),
   ("b", ["# TOOL 1: g2 - H", "POST|/y/search|search"])]

/-- The loader over `fsGood`. -/
def loadGood : String → Except String Grouped := load_toolset_grouped_apis fsGood 5

/-- The directory scan of `fsGood`. -/
def availGood : List String := ["a", "b"]

/-- The registry state after successfully enabling `a` then `b`. -/
def stateGoodAB : RegState :=
  (enable_toolset availGood loadGood true
    (enable_toolset availGood loadGood true ⟨none, [], metaToolNames⟩ "a").1 "b").1

/-- Directory in which `b` inherits `a` and re-declares `a`'s only API
line under the same group name. -/
def fsDup : FileSys :=
  [("a", ["# TOOL 1: t - d", "GET|/x|get"]),
   ("b", ["@inherit:a", "# TOOL 1: t - d", "GET|/x|get"])]

/-! ## Helper lemmas: keyword-argument bags -/

theorem popKw_of_lookup_none {kwargs : List (String × Value)} {k : String}
    (h : lookupKw kwargs k = none) : popKw kwargs k = (none, kwargs) := by
  induction kwargs with
  | nil => rfl
  | cons p rest ih =>
    simp only [lookupKw, lookupKV] at h
    simp only [popKw]
    by_cases hk : p.1 == k
    · simp [hk] at h
    · simp only [hk] at h ⊢
      simp only [Bool.false_eq_true, if_false] at h ⊢
      rw [ih h]

theorem popKw_fst_eq_lookup (kwargs : List (String × Value)) (k : String) :
    (popKw kwargs k).1 = lookupKw kwargs k := by
  induction kwargs with
  | nil => rfl
  | cons p rest ih =>
    simp only [popKw, lookupKw, lookupKV]
    by_cases hk : p.1 == k
    · simp [hk]
    · simp only [hk, Bool.false_eq_true, if_false]
      simpa [lookupKw] using ih

theorem mem_popKw_snd {kwargs : List (String × Value)} {k : String} {p : String × Value}
    (hp : p ∈ (popKw kwargs k).2) : p ∈ kwargs := by
  induction kwargs with
  | nil => simp [popKw] at hp
  | cons q rest ih =>
    simp only [popKw] at hp
    by_cases hk : q.1 == k
    · simp only [hk, if_true] at hp
      exact List.mem_cons_of_mem _ hp
    · simp only [hk, Bool.false_eq_true, if_false, List.mem_cons] at hp
      rcases hp with h | h
      · exact h ▸ List.mem_cons_self _ _
      · exact List.mem_cons_of_mem _ (ih h)

theorem lookup_popKw_other {kwargs : List (String × Value)} {k k' : String}
    (hne : k' ≠ k) : lookupKw (popKw kwargs k).2 k' = lookupKw kwargs k' := by
  induction kwargs with
  | nil => rfl
  | cons q rest ih =>
    simp only [popKw, lookupKw, lookupKV]
    by_cases hk : q.1 == k
    · simp only [hk, if_true]
      have : (q.1 == k') = false := by
        have := beq_iff_eq.mp hk
        simp [this, beq_iff_eq]
        exact fun h => hne h.symm
      simp [lookupKw, lookupKV, this]
    · simp only [hk, Bool.false_eq_true, if_false]
      by_cases hk' : q.1 == k'
      · simp [lookupKw, lookupKV, hk']
      · simp only [lookupKw, lookupKV, hk', Bool.false_eq_true, if_false]
        exact ih

theorem mem_popKw_of_ne {kwargs : List (String × Value)} {k : String} {p : String × Value}
    (hp : p ∈ kwargs) (hne : p.1 ≠ k) : p ∈ (popKw kwargs k).2 := by
  induction kwargs with
  | nil => simp at hp
  | cons q rest ih =>
    simp only [popKw]
    by_cases hk : q.1 == k
    · simp only [hk, if_true]
      rcases List.mem_cons.mp hp with h | h
      · exact absurd (h ▸ beq_iff_eq.mp hk) hne
      · exact h
    · simp only [hk, Bool.false_eq_true, if_false, List.mem_cons]
      rcases List.mem_cons.mp hp with h | h
      · exact Or.inl h
      · exact Or.inr (ih h)

theorem popKw_keys_nodup_absent {kwargs : List (String × Value)} {k : String}
    (hnd : (kwargs.map Prod.fst).Nodup) :
    ∀ p ∈ (popKw kwargs k).2, p.1 ≠ k := by
  induction kwargs with
  | nil => intro p hp; simp [popKw] at hp
  | cons q rest ih =>
    simp only [List.map_cons, List.nodup_cons] at hnd
    intro p hp
    simp only [popKw] at hp
    by_cases hk : q.1 == k
    · simp only [hk, if_true] at hp
      intro hpk
      exact hnd.1 (by
        have : p.1 ∈ rest.map Prod.fst := List.mem_map_of_mem Prod.fst hp
        rw [hpk, ← beq_iff_eq.mp hk] at this
        exact this)
    · simp only [hk, Bool.false_eq_true, if_false, List.mem_cons] at hp
      rcases hp with h | h
      · subst h; exact fun hpk => absurd hpk (by simpa using hk)
      · exact ih hnd.2 p h

theorem mem_substFold_of_ne {names : List String} :
    ∀ {acc : String × List (String × Value)} {p : String × Value},
      p ∈ acc.2 → p.1 ∉ names → p ∈ (substFold names acc).2 := by
  induction names with
  | nil => intro acc p hp _; simpa [substFold] using hp
  | cons nm names ih =>
    intro acc p hp hn
    simp only [List.mem_cons, not_or] at hn
    simp only [substFold]
    cases h : lookupKw acc.2 nm with
    | none => exact ih hp hn.2
    | some v =>
      exact ih (mem_popKw_of_ne hp hn.1) hn.2

theorem mem_of_mem_substFold {names : List String} :
    ∀ {acc : String × List (String × Value)} {p : String × Value},
      p ∈ (substFold names acc).2 → p ∈ acc.2 := by
  induction names with
  | nil => intro acc p hp; simpa [substFold] using hp
  | cons nm names ih =>
    intro acc p hp
    simp only [substFold] at hp
    cases h : lookupKw acc.2 nm with
    | none => rw [h] at hp; exact ih hp
    | some v => rw [h] at hp; exact mem_popKw_snd (ih hp)

/-! ## Helper lemmas: the action registry and `sorted` -/

theorem lookupKV_eq_none_iff {β : Type} (reg : List (String × β)) (k : String) :
    lookupKV reg k = none ↔ k ∉ reg.map Prod.fst := by
  induction reg with
  | nil => simp [lookupKV]
  | cons p rest ih =>
    simp only [lookupKV, List.map_cons, List.mem_cons]
    by_cases hk : p.1 == k
    · constructor
      · intro h; simp [hk] at h
      · intro h; exact absurd (Or.inl (beq_iff_eq.mp hk).symm) h
    · have hne : p.1 ≠ k := by simpa using hk
      simp only [hk, Bool.false_eq_true, if_false, ih]
      constructor
      · intro h hcon
        rcases hcon with h1 | h1
        · exact hne h1.symm
        · exact h h1
      · intro h h1; exact h (Or.inr h1)

theorem mem_keys_insertOverride {reg : List (String × ActionInfo)} {k k' : String}
    {v : ActionInfo} :
    k' ∈ (insertOverride reg k v).map Prod.fst ↔ k' ∈ reg.map Prod.fst ∨ k' = k := by
  induction reg with
  | nil => simp [insertOverride]
  | cons p rest ih =>
    simp only [insertOverride]
    by_cases hk : p.1 == k
    · simp [hk, beq_iff_eq.mp hk]
      tauto
    · simp only [hk, Bool.false_eq_true, if_false, List.map_cons, List.mem_cons, ih]
      tauto

theorem mem_keys_buildRegistryAux (rules : List Rule) (apis : List Api) :
    ∀ (reg : List (String × ActionInfo)) (n : String),
      n ∈ (buildRegistryAux rules reg apis).map Prod.fst ↔
        n ∈ reg.map Prod.fst ∨ n ∈ apis.map Api.action := by
  induction apis with
  | nil => intro reg n; simp [buildRegistryAux]
  | cons api rest ih =>
    intro reg n
    simp only [buildRegistryAux, ih, mem_keys_insertOverride, List.map_cons, List.mem_cons]
    tauto

theorem mem_keys_buildRegistry (rules : List Rule) (apis : List Api) (n : String) :
    n ∈ (buildRegistry rules apis).map Prod.fst ↔ n ∈ apis.map Api.action := by
  rw [buildRegistry, mem_keys_buildRegistryAux]
  simp

theorem mem_sortIns (a s : String) (l : List String) :
    a ∈ sortIns s l ↔ a = s ∨ a ∈ l := by
  induction l with
  | nil => simp [sortIns]
  | cons x xs ih =>
    simp only [sortIns]
    by_cases h : pyStrLe s x
    · simp [h]
    · simp only [h, Bool.false_eq_true, if_false, List.mem_cons, ih]
      tauto

theorem mem_sortStrings (a : String) (l : List String) :
    a ∈ sortStrings l ↔ a ∈ l := by
  induction l with
  | nil => simp [sortStrings]
  | cons x xs ih =>
    simp only [sortStrings, List.foldr] at ih ⊢
    simp [mem_sortIns, ih]

/-! ## Helper lemmas: first-match rule scanning -/

theorem get_confirmation_eq_find (rules : List Rule) (method path : String) :
    get_confirmation_for_operation rules method path =
      match rules.find? (fun r => ruleMatches r method path) with
      | some r => parseRule r
      | none => noConfirmation := by
  induction rules with
  | nil => rfl
  | cons r rs ih =>
    cases hw : r.method == "*" <;> cases hm : r.method == method <;>
      cases hp : path_matches path r.path_pattern <;>
      simp [get_confirmation_for_operation, List.find?, ruleMatches, bne, hw, hm, hp, ih]

/-! ## Helper lemmas: path-template matching -/

theorem tokMatch_wild_append (ts : List Tok) (cs : List Char)
    (h : tokMatch ts cs = true) :
    ∀ seg : List Char, seg ≠ [] → (∀ c ∈ seg, c ≠ '/') →
      tokMatch (.wild :: ts) (seg ++ cs) = true := by
  intro seg
  induction seg with
  | nil => intro hne _; cases hne rfl
  | cons d seg ih =>
    intro _ hns
    show tokMatch (.wild :: ts) (d :: (seg ++ cs)) = true
    simp only [tokMatch, Bool.and_eq_true, Bool.or_eq_true, Bool.not_eq_true']
    refine ⟨by simpa using hns d (List.mem_cons_self d seg), ?_⟩
    cases seg with
    | nil => exact Or.inl (by simpa using h)
    | cons e seg2 =>
      exact Or.inr (ih (by simp) (fun c hc => hns c (List.mem_cons_of_mem d hc)))

theorem tokMatches_wild_cons {ts : List Tok} {ds : List Char} (d : Char) (hd : d ≠ '/')
    (h : TokMatches (.wild :: ts) ds) : TokMatches (.wild :: ts) (d :: ds) := by
  cases h with
  | wild seg hne hns tm =>
    rw [← List.cons_append]
    exact TokMatches.wild (d :: seg) (by simp)
      (by
        intro c hc
        rcases List.mem_cons.mp hc with h1 | h1
        · exact h1 ▸ hd
        · exact hns c h1)
      tm

theorem tokMatch_iff (ts : List Tok) (cs : List Char) :
    tokMatch ts cs = true ↔ TokMatches ts cs := by
  constructor
  · intro h
    induction ts, cs using tokMatch.induct with
    | case1 cs =>
      have : cs = [] := by simpa [tokMatch, List.isEmpty_iff] using h
      exact this ▸ TokMatches.nil
    | case2 t ts =>
      simp [tokMatch] at h
    | case3 c ts d ds ih =>
      simp only [tokMatch, Bool.and_eq_true, beq_iff_eq] at h
      exact h.1 ▸ TokMatches.lit _ (ih h.2)
    | case4 ts d ds ih1 ih2 =>
      simp only [tokMatch, Bool.and_eq_true, Bool.or_eq_true, Bool.not_eq_true'] at h
      have hd : d ≠ '/' := by simpa using h.1
      rcases h.2 with h2 | h2
      · have : TokMatches ts ds := ih1 h2
        have : TokMatches (.wild :: ts) ([d] ++ ds) :=
          TokMatches.wild [d] (by simp) (by simpa using hd) this
        simpa using this
      · exact tokMatches_wild_cons d hd (ih2 h2)
  · intro h
    induction h with
    | nil => rfl
    | lit c _ ih => simp [tokMatch, ih]
    | wild seg hne hns _ ih => exact tokMatch_wild_append _ _ ih seg hne hns

/-! ## Helper lemmas: loader monotonicity -/

theorem GroupedLe.refl (g : Grouped) : GroupedLe g g :=
  ⟨fun _ h => h, fun _ _ h => h⟩

theorem GroupedLe.trans {g1 g2 g3 : Grouped} (h12 : GroupedLe g1 g2) (h23 : GroupedLe g2 g3) :
    GroupedLe g1 g3 :=
  ⟨fun u h => h23.1 u (h12.1 u h), fun u api h => h23.2 u api (h12.2 u api h)⟩

theorem lookupG_extendApis (g : Grouped) (t : String) (apis : List Api) (u : String) :
    lookupG (extendApis g t apis) u =
      match lookupG g u with
      | some d => if u = t then some ⟨d.description, d.apis ++ apis⟩ else some d
      | none => none := by
  induction g with
  | nil => rfl
  | cons p rest ih =>
    obtain ⟨t', d⟩ := p
    by_cases ht : t' = t
    · subst ht
      have hb : (t' == t') = true := beq_iff_eq.mpr rfl
      simp only [extendApis, hb, if_true]
      by_cases hu : t' = u
      · subst hu
        simp [lookupG, lookupKV]
      · have h1 : (t' == u) = false := beq_eq_false_iff_ne.mpr hu
        have h2 : ¬ (u = t') := fun h => hu h.symm
        simp only [lookupG, lookupKV, h1, Bool.false_eq_true, if_false]
        cases hr : lookupKV rest u <;> simp [h2]
    · have h2 : (t' == t) = false := beq_eq_false_iff_ne.mpr ht
      simp only [extendApis, h2, Bool.false_eq_true, if_false]
      by_cases hu : t' = u
      · subst hu
        have h3 : ¬ (t' = t) := ht
        simp only [lookupG, lookupKV, beq_iff_eq.mpr rfl, if_true]
        simp [h3]
      · have h3 : (t' == u) = false := beq_eq_false_iff_ne.mpr hu
        simp only [lookupG, lookupKV, h3, Bool.false_eq_true, if_false] at ih ⊢
        exact ih

theorem extendApis_le (g : Grouped) (t : String) (apis : List Api) :
    GroupedLe g (extendApis g t apis) := by
  constructor
  · intro u h
    rw [lookupG_extendApis]
    cases hg : lookupG g u with
    | none => rw [hg] at h; simp at h
    | some d => by_cases hu : u = t <;> simp [hu]
  · intro u api h
    obtain ⟨d, hd, hmem⟩ := h
    by_cases hu : u = t
    · refine ⟨⟨d.description, d.apis ++ apis⟩, ?_, List.mem_append_left _ hmem⟩
      rw [lookupG_extendApis, hd]
      simp [hu]
    · refine ⟨d, ?_, hmem⟩
      rw [lookupG_extendApis, hd]
      simp [hu]

theorem extendApis_mem_self {g : Grouped} {t : String} {d : GroupData}
    (hd : lookupG g t = some d) (apis : List Api) :
    ∀ api ∈ apis, MemG (extendApis g t apis) t api := by
  intro api hapi
  refine ⟨⟨d.description, d.apis ++ apis⟩, ?_, List.mem_append_right _ hapi⟩
  rw [lookupG_extendApis, hd]
  simp

theorem appendApi_eq_extend (g : Grouped) (t : String) (api : Api) :
    appendApi g t api = extendApis g t [api] := by
  induction g with
  | nil => rfl
  | cons p rest ih =>
    obtain ⟨t', d⟩ := p
    by_cases ht : t' == t <;> simp [appendApi, extendApis, ht, ih]

theorem appendApi_le (g : Grouped) (t : String) (api : Api) :
    GroupedLe g (appendApi g t api) := by
  rw [appendApi_eq_extend]
  exact extendApis_le g t [api]

theorem lookupG_append_single (g : Grouped) (t : String) (d : GroupData) (u : String) :
    lookupG (g ++ [(t, d)]) u =
      match lookupG g u with
      | some d' => some d'
      | none => if u = t then some d else none := by
  induction g with
  | nil =>
    simp only [List.nil_append]
    by_cases hu : u = t
    · subst hu
      simp [lookupG, lookupKV]
    · have h1 : (t == u) = false := beq_eq_false_iff_ne.mpr (fun h => hu h.symm)
      simp [lookupG, lookupKV, h1, hu]
  | cons p rest ih =>
    by_cases hp : p.1 == u
    · simp [lookupG, lookupKV, hp]
    · simp only [lookupG, lookupKV, List.cons_append] at ih ⊢
      simp only [hp, Bool.false_eq_true, if_false]
      exact ih

theorem append_entry_le (g : Grouped) (t : String) (d : GroupData) :
    GroupedLe g (g ++ [(t, d)]) := by
  constructor
  · intro u h
    rw [lookupG_append_single]
    cases hg : lookupG g u with
    | none => rw [hg] at h; simp at h
    | some d' => simp
  · intro u api h
    obtain ⟨d', hd, hmem⟩ := h
    refine ⟨d', ?_, hmem⟩
    rw [lookupG_append_single, hd]

theorem lookupG_ensure_isSome (g : Grouped) (t : String) (d : GroupData) :
    (lookupG (if (lookupG g t).isNone then g ++ [(t, d)] else g) t).isSome := by
  by_cases hg : (lookupG g t).isNone
  · simp only [hg, if_true]
    rw [lookupG_append_single]
    cases h : lookupG g t with
    | none => simp
    | some d' => simp [h] at hg
  · simp only [hg, Bool.false_eq_true, if_false]
    cases h : lookupG g t with
    | none => simp [h] at hg
    | some d' => simp

theorem mergeParent_le (pg : Grouped) :
    ∀ g : Grouped, GroupedLe g (mergeParent g pg) := by
  induction pg with
  | nil => intro g; exact GroupedLe.refl g
  | cons e rest ih =>
    intro g
    obtain ⟨t, d⟩ := e
    simp only [mergeParent]
    by_cases hg : (lookupG g t).isNone
    · simp only [hg, if_true]
      exact ((append_entry_le g t ⟨d.description, []⟩).trans
        (extendApis_le _ t d.apis)).trans (ih _)
    · simp only [hg, Bool.false_eq_true, if_false]
      exact (extendApis_le g t d.apis).trans (ih _)

theorem mergeParent_sup (pg : Grouped) :
    ∀ g : Grouped, GroupedLe pg (mergeParent g pg) := by
  induction pg with
  | nil =>
    intro g
    constructor
    · intro u h; simp [lookupG, lookupKV] at h
    · intro u api h; obtain ⟨d, hd, _⟩ := h; simp [lookupG, lookupKV] at hd
  | cons e rest ih =>
    intro g
    obtain ⟨t, d⟩ := e
    simp only [mergeParent]
    set g1 := if (lookupG g t).isNone then g ++ [(t, (⟨d.description, []⟩ : GroupData))] else g
      with hg1
    have hsome : (lookupG g1 t).isSome := lookupG_ensure_isSome g t ⟨d.description, []⟩
    obtain ⟨d1, hd1⟩ := Option.isSome_iff_exists.mp hsome
    constructor
    · intro u h
      by_cases hu : u = t
      · subst hu
        have hx : (lookupG (extendApis g1 u d.apis) u).isSome := by
          rw [lookupG_extendApis, hd1]; simp
        exact (mergeParent_le rest _).1 u hx
      · have h4 : ((t : String) == u) = false := beq_eq_false_iff_ne.mpr (fun h => hu h.symm)
        simp only [lookupG, lookupKV, h4, Bool.false_eq_true, if_false] at h
        exact (ih _).1 u h
    · intro u api h
      obtain ⟨du, hdu, hmem⟩ := h
      by_cases hu : u = t
      · subst hu
        simp only [lookupG, lookupKV, beq_iff_eq.mpr rfl, if_true] at hdu
        injection hdu with hdd
        subst hdd
        have hm : MemG (extendApis g1 u d.apis) u api :=
          extendApis_mem_self hd1 d.apis api hmem
        exact (mergeParent_le rest _).2 u api hm
      · have h4 : ((t : String) == u) = false := beq_eq_false_iff_ne.mpr (fun h => hu h.symm)
        simp only [lookupG, lookupKV, h4, Bool.false_eq_true, if_false] at hdu
        exact (ih _).2 u api ⟨du, hdu, hmem⟩

theorem processLines_nil_ok {fs : FileSys} {load : String → Except String Grouped}
    {self : String} {g g' : Grouped} {cur : Option String}
    (hok : processLines fs load self [] g cur = .ok g') : g = g' := by
  simp only [processLines] at hok
  exact Except.ok.inj hok


theorem GroupedLe_ite_append (g : Grouped) (t : String) (d : GroupData) (c : Prop)
    [Decidable c] : GroupedLe g (if c then g ++ [(t, d)] else g) := by
  split
  · exact append_entry_le g t d
  · exact GroupedLe.refl g

theorem processLines_ok_le (fs : FileSys) (load : String → Except String Grouped)
    (self : String) :
    ∀ (lines : List String) (g : Grouped) (cur : Option String) (g' : Grouped),
      processLines fs load self lines g cur = .ok g' → GroupedLe g g' := by
  intro lines
  induction lines with
  | nil =>
    intro g cur g' hok
    rw [processLines_nil_ok hok]
    exact GroupedLe.refl g'
  | cons l rest ih =>
    intro g cur g' hok
    simp only [processLines] at hok
    split at hok
    · exact ih _ _ _ hok
    · split at hok
      · exact GroupedLe.trans (GroupedLe_ite_append g _ _ _) (ih _ _ _ hok)
      · split at hok
        · exact ih _ _ _ hok
        · split at hok
          · split at hok
            · exact Except.noConfusion hok
            · split at hok
              · exact Except.noConfusion hok
              · exact (mergeParent_le _ g).trans (ih _ _ _ hok)
          · split at hok
            · exact (appendApi_le g _ _).trans (ih _ _ _ hok)
            · exact ih _ _ _ hok

theorem pyStartsWith_false_of_head {s p : String} {c c' : Char} {cs ps : List Char}
    (hs : s.data = c :: cs) (hp : p.data = c' :: ps) (hne : (c' == c) = false) :
    pyStartsWith s p = false := by
  unfold pyStartsWith
  rw [hp, hs]
  simp [isPrefixL, hne]

theorem inherit_line_shape {s : String} (h : pyStartsWith s "@inherit:" = true) :
    ∃ cs, s.data = '@' :: cs := by
  unfold pyStartsWith at h
  rw [(rfl : ("@inherit:" : String).data = '@' :: "inherit:".data)] at h
  cases hs : s.data with
  | nil => rw [hs] at h; simp [isPrefixL] at h
  | cons c cs =>
    rw [hs] at h
    simp only [isPrefixL, Bool.and_eq_true, beq_iff_eq] at h
    exact ⟨cs, by rw [← h.1]⟩

theorem inherit_line_ne_empty {s : String} (h : pyStartsWith s "@inherit:" = true) :
    (s == "") = false := by
  obtain ⟨cs, hs⟩ := inherit_line_shape h
  rw [beq_eq_false_iff_ne]
  intro hh
  rw [hh] at hs
  exact List.noConfusion hs

theorem inherit_line_not_tool {s : String} (h : pyStartsWith s "@inherit:" = true) :
    pyStartsWith s "# TOOL" = false := by
  obtain ⟨cs, hs⟩ := inherit_line_shape h
  exact pyStartsWith_false_of_head hs
    (rfl : ("# TOOL" : String).data = '#' :: " TOOL".data) (by decide)

theorem inherit_line_not_comment {s : String} (h : pyStartsWith s "@inherit:" = true) :
    pyStartsWith s "#" = false := by
  obtain ⟨cs, hs⟩ := inherit_line_shape h
  exact pyStartsWith_false_of_head hs (rfl : ("#" : String).data = '#' :: []) (by decide)

theorem processLines_inherit_sup (fs : FileSys) (load : String → Except String Grouped)
    (self : String) {parent : String} {pg : Grouped} (hpg : load parent = .ok pg) :
    ∀ (lines : List String) (g : Grouped) (cur : Option String) (g' : Grouped) (l : String),
      l ∈ lines →
      pyStartsWith (pyTrim l) "@inherit:" = true →
      pyTrim ((pySplit (pyTrim l) ":").getD 1 "") = parent →
      processLines fs load self lines g cur = .ok g' →
      GroupedLe pg g' := by
  intro lines
  induction lines with
  | nil => intro g cur g' l hl; simp at hl
  | cons l0 rest ih =>
    intro g cur g' l hl hstart hparent hok
    rcases List.mem_cons.mp hl with rfl | hl'
    · simp only [processLines] at hok
      rw [if_neg (by simp [inherit_line_ne_empty hstart])] at hok
      rw [if_neg (by simp [inherit_line_not_tool hstart])] at hok
      rw [if_neg (by simp [inherit_line_not_comment hstart])] at hok
      rw [if_pos hstart] at hok
      rw [hparent] at hok
      split at hok
      · exact Except.noConfusion hok
      · simp only [hpg] at hok
        exact (mergeParent_sup pg g).trans (processLines_ok_le fs load self rest _ cur _ hok)
    · simp only [processLines] at hok
      split at hok
      · exact ih _ _ _ l hl' hstart hparent hok
      · split at hok
        · exact ih _ _ _ l hl' hstart hparent hok
        · split at hok
          · exact ih _ _ _ l hl' hstart hparent hok
          · split at hok
            · split at hok
              · exact Except.noConfusion hok
              · split at hok
                · exact Except.noConfusion hok
                · exact ih _ _ _ l hl' hstart hparent hok
            · split at hok
              · exact ih _ _ _ l hl' hstart hparent hok
              · exact ih _ _ _ l hl' hstart hparent hok

/-! ## Helper lemmas: the registry state machine -/

theorem mem_addToolName (tools : List String) (x n : String) :
    n ∈ addToolName tools x ↔ n ∈ tools ∨ n = x := by
  unfold addToolName
  split
  · rename_i h
    simp only [List.contains, List.elem_iff] at h
    constructor
    · exact Or.inl
    · rintro (h1 | rfl)
      · exact h1
      · exact h
  · simp [List.mem_append]

theorem mem_foldl_addToolName (l : List String) :
    ∀ (init : List String) (n : String),
      n ∈ l.foldl addToolName init ↔ n ∈ init ∨ n ∈ l := by
  induction l with
  | nil => intro init n; simp
  | cons x xs ih =>
    intro init n
    simp only [List.foldl_cons, ih, mem_addToolName, List.mem_cons]
    tauto

theorem contains_eq_false_iff (l : List String) (a : String) :
    l.contains a = false ↔ a ∉ l := by
  constructor
  · intro h hmem
    rw [(List.contains.eq_1 l a : l.contains a = List.elem a l)] at h
    rw [List.elem_eq_true_of_mem hmem] at h
    exact Bool.noConfusion h
  · intro h
    cases hb : l.contains a
    · rfl
    · rw [(List.contains.eq_1 l a : l.contains a = List.elem a l)] at hb
      exact absurd (List.mem_of_elem_eq_true hb) h

theorem disableCurrentInternal_appTools {initTools : List String} {s : RegState}
    (hreg : ∀ n, n ∈ s.appTools ↔ (n ∈ initTools ∨ n ∈ s.registered))
    (hdisj : ∀ n, n ∈ s.registered → n ∉ initTools) :
    ∀ n, n ∈ (disableCurrentInternal s).1.appTools ↔ n ∈ initTools := by
  intro n
  simp only [disableCurrentInternal, List.mem_filter, Bool.not_eq_true',
    contains_eq_false_iff, hreg]
  constructor
  · rintro ⟨h1 | h1, h2⟩
    · exact h1
    · exact absurd h1 h2
  · intro h
    exact ⟨Or.inl h, fun hc => hdisj n hc h⟩

theorem regInv_disj {initTools avail : List String} {load : String → Except String Grouped}
    {s : RegState}
    (hload : ∀ n, n ∈ avail → ∃ g, load n = .ok g ∧ ∀ e ∈ g, e.2.apis ≠ [] ∧ e.1 ∉ initTools)
    (hinv1 : ∀ n, n ∈ s.registered ↔ n ∈ activeGroupNames load s.current)
    (hinv3 : ∀ x, s.current = some x → x ∈ avail) :
    ∀ n, n ∈ s.registered → n ∉ initTools := by
  intro n hn
  have hact := (hinv1 n).mp hn
  cases hc : s.current with
  | none => rw [hc] at hact; simp [activeGroupNames] at hact
  | some x =>
    rw [hc] at hact
    obtain ⟨gx, hgx, hpx⟩ := hload x (hinv3 x hc)
    simp only [activeGroupNames, hgx] at hact
    obtain ⟨e, he, hfst⟩ := List.mem_map.mp hact
    exact hfst ▸ (hpx e he).2

theorem regInv_init (initTools avail : List String) (load : String → Except String Grouped) :
    RegInv initTools avail load ⟨none, [], initTools⟩ := by
  refine ⟨?_, ?_, ?_⟩
  · intro n; simp [activeGroupNames]
  · intro n; simp
  · intro x hx; exact Option.noConfusion hx

theorem regInv_enable {initTools avail : List String} {load : String → Except String Grouped}
    {s : RegState}
    (hload : ∀ n, n ∈ avail → ∃ g, load n = .ok g ∧ ∀ e ∈ g, e.2.apis ≠ [] ∧ e.1 ∉ initTools)
    (hinv : RegInv initTools avail load s) (appInit : Bool) (name : String) :
    RegInv initTools avail load (enable_toolset avail load appInit s name).1 := by
  obtain ⟨hinv1, hinv2, hinv3⟩ := hinv
  unfold enable_toolset
  cases hav : avail.contains name with
  | false =>
    simp only [hav, Bool.not_false, if_true]
    exact ⟨hinv1, hinv2, hinv3⟩
  | true =>
    cases happ : appInit with
    | false =>
      simp only [hav, Bool.not_true, Bool.false_eq_true, if_false, Bool.not_false, if_true]
      exact ⟨hinv1, hinv2, hinv3⟩
    | true =>
      simp only [hav, Bool.not_true, Bool.false_eq_true, if_false]
      have hmemav : name ∈ avail := by
        have := hav
        simp only [List.contains, List.elem_iff] at this
        exact this
      obtain ⟨g, hg, hprops⟩ := hload name hmemav
      have hdisj := regInv_disj hload hinv1 hinv3
      -- the state after the optional internal disable
      have hs1 : ∀ s1 : RegState,
          (∀ n, n ∉ s1.registered) → (∀ n, n ∈ s1.appTools ↔ n ∈ initTools) →
          RegInv initTools avail load
            (match registerToolsetTools load s1 name with
             | .error e => (s1, EnableResp.errException e)
             | .ok p => (⟨some name, p.1.registered, p.1.appTools⟩,
                 EnableResp.enabled name p.2 s.current)).1 := by
        intro s1 hreg1 happ1
        simp only [registerToolsetTools, hg]
        have hgen : ∀ n,
            (n ∈ ((g.filter fun e => !e.2.apis.isEmpty).map Prod.fst)) ↔ n ∈ g.map Prod.fst := by
          intro n
          simp only [List.mem_map, List.mem_filter]
          constructor
          · rintro ⟨e, ⟨he, _⟩, hf⟩; exact ⟨e, he, hf⟩
          · rintro ⟨e, he, hf⟩
            refine ⟨e, ⟨he, ?_⟩, hf⟩
            have hne := (hprops e he).1
            cases hae : e.2.apis with
            | nil => exact absurd hae hne
            | cons a as => simp
        have hafter : ∀ n,
            n ∈ ((g.filter fun e => !e.2.apis.isEmpty).map Prod.fst).foldl addToolName
              s1.appTools ↔ n ∈ s1.appTools ∨ n ∈ g.map Prod.fst := by
          intro n
          rw [mem_foldl_addToolName, hgen]
        have hnew : ∀ n,
            n ∈ (((g.filter fun e => !e.2.apis.isEmpty).map Prod.fst).foldl addToolName
              s1.appTools).filter (fun t => !(s1.appTools.contains t)) ↔
              n ∈ g.map Prod.fst := by
          intro n
          simp only [List.mem_filter, Bool.not_eq_true', contains_eq_false_iff, hafter]
          constructor
          · rintro ⟨h1 | h1, h2⟩
            · exact absurd h1 h2
            · exact h1
          · intro h
            refine ⟨Or.inr h, fun hc => ?_⟩
            obtain ⟨e, he, hfst⟩ := List.mem_map.mp h
            exact (hfst ▸ (hprops e he).2) ((happ1 n).mp hc)
        refine ⟨?_, ?_, ?_⟩
        · intro n
          simp only [List.mem_append, hnew, activeGroupNames, hg]
          constructor
          · rintro (h1 | h1)
            · exact absurd h1 (hreg1 n)
            · exact h1
          · exact Or.inr
        · intro n
          simp only [hafter, List.mem_append, hnew, happ1]
          tauto
        · intro x hx
          cases hx
          exact hmemav
      by_cases hcur : s.current.isSome
      · simp only [hcur, if_true]
        refine hs1 (disableCurrentInternal s).1 (fun n => by simp [disableCurrentInternal]) ?_
        exact disableCurrentInternal_appTools hinv2 hdisj
      · simp only [hcur, Bool.false_eq_true, if_false]
        have hnone : s.current = none := Option.not_isSome_iff_eq_none.mp (by simpa using hcur)
        refine hs1 s ?_ ?_
        · intro n hn
          have := (hinv1 n).mp hn
          rw [hnone] at this
          simp [activeGroupNames] at this
        · intro n
          rw [hinv2 n]
          constructor
          · rintro (h | h)
            · exact h
            · have := (hinv1 n).mp h
              rw [hnone] at this
              simp [activeGroupNames] at this
          · exact Or.inl

theorem regInv_disable {initTools avail : List String} {load : String → Except String Grouped}
    {s : RegState}
    (hload : ∀ n, n ∈ avail → ∃ g, load n = .ok g ∧ ∀ e ∈ g, e.2.apis ≠ [] ∧ e.1 ∉ initTools)
    (hinv : RegInv initTools avail load s) :
    RegInv initTools avail load (disable_toolset s).1 := by
  obtain ⟨hinv1, hinv2, hinv3⟩ := hinv
  unfold disable_toolset
  cases hc : s.current with
  | none => exact ⟨hinv1, hinv2, hinv3⟩
  | some x =>
    have hdisj := regInv_disj hload hinv1 hinv3
    refine ⟨?_, ?_, ?_⟩
    · intro n; simp [disableCurrentInternal, activeGroupNames]
    · intro n
      have h := disableCurrentInternal_appTools hinv2 hdisj n
      simp only [disableCurrentInternal] at h ⊢
      simp only [List.not_mem_nil, or_false]
      exact h
    · intro y hy
      exact Option.noConfusion hy

theorem reachable_regInv {initTools avail : List String}
    {load : String → Except String Grouped} {appInit : Bool} {s : RegState}
    (hload : ∀ n, n ∈ avail → ∃ g, load n = .ok g ∧ ∀ e ∈ g, e.2.apis ≠ [] ∧ e.1 ∉ initTools)
    (hs : Reachable initTools avail load appInit s) :
    RegInv initTools avail load s := by
  induction hs with
  | init => exact regInv_init initTools avail load
  | enableStep s name _ ih => exact regInv_enable hload ih appInit name
  | disableStep s _ ih => exact regInv_disable hload ih

/-! ## Remaining small lemmas -/

theorem mem_of_lookupKw {kwargs : List (String × Value)} {k : String} {v : Value}
    (h : lookupKw kwargs k = some v) : (k, v) ∈ kwargs := by
  induction kwargs with
  | nil => simp [lookupKw, lookupKV] at h
  | cons p rest ih =>
    simp only [lookupKw, lookupKV] at h
    by_cases hk : p.1 == k
    · simp only [hk, if_true] at h
      injection h with h
      have : p = (k, v) := by
        obtain ⟨p1, p2⟩ := p
        simp only at h
        rw [Prod.mk.injEq]
        exact ⟨beq_iff_eq.mp hk, h⟩
      rw [← this]
      exact List.mem_cons_self _ _
    · simp only [hk, Bool.false_eq_true, if_false] at h
      exact List.mem_cons_of_mem _ (ih h)

theorem substFold_nil_bag (names : List String) (path : String) :
    substFold names (path, []) = (path, []) := by
  induction names with
  | nil => rfl
  | cons nm names ih => simpa [substFold, lookupKw, lookupKV] using ih


theorem buildRequest_eq_transport (actionName : String) (info : ActionInfo)
    (kwargs : List (String × Value)) :
    ∃ b, buildRequest actionName info kwargs =
      .transport info.method (substPath info.path kwargs).1
        (if ((popKw (popKw (substPath info.path kwargs).2 "filter_expression").2 "body").2.filter
            (fun p => !(p.2 == Value.vNone))).isEmpty then none
         else some ((popKw (popKw (substPath info.path kwargs).2 "filter_expression").2
            "body").2.filter (fun p => !(p.2 == Value.vNone)))) b :=
  ⟨_, rfl⟩

/-! ## The claims -/

/-- C1: for every synthesized grouped operation and every member action
whose confirmation tier is not `none`, invoking without the `confirmed`
acknowledgment flag returns a structured `confirmation_required`
response carrying the tier, message, action name and resupply
instructions, and performs no transport call; invoking with the flag
set proceeds to the transport call. -/
theorem claim_C1_confirmation_gate
    (rules : List Rule) (tool : String) (apis : List Api) (action : String)
    (kwargs kwargs2 : List (String × Value)) (info : ActionInfo)
    (hlook : lookupKV (buildRegistry rules apis) action = some info)
    (htier : info.confirmation.level ≠ "none")
    (habsent : lookupKw kwargs "confirmed" = none)
    (hset : lookupKw kwargs2 "confirmed" = some (Value.vBool true)) :
    grouped_tool rules tool apis true action kwargs =
      .confirmationRequired info.confirmation.level info.confirmation.message action tool
        info.path confirmInstructions ∧
    ∃ m p q b, grouped_tool rules tool apis true action kwargs2 = .transport m p q b := by
  have hb : (info.confirmation.level != "none") = true := bne_iff_ne.mpr htier
  constructor
  · have hpopn : (popKw kwargs "confirmed").1 = none :=
      (popKw_fst_eq_lookup _ _).trans habsent
    simp only [grouped_tool, Bool.not_true, Bool.false_eq_true, if_false, hlook]
    rw [if_pos hb, if_pos (by simp [hpopn, Value.truthy])]
  · have hpops : (popKw kwargs2 "confirmed").1 = some (Value.vBool true) :=
      (popKw_fst_eq_lookup _ _).trans hset
    simp only [grouped_tool, Bool.not_true, Bool.false_eq_true, if_false, hlook]
    rw [if_pos hb, if_neg (by simp [hpops, Value.truthy])]
    exact ⟨_, _, _, _, rfl⟩

/-- Witness for C1 at a concrete destructive action: tier `manual`
without the flag yields `confirmation_required`; with `confirmed=True`
it reaches transport. -/
theorem claim_C1_confirmation_gate_witness :
    grouped_tool [⟨"DELETE", "/x/\x7bid\x7d", "manual", "Careful"⟩] "x_tool"
      [⟨"DELETE", "/x/\x7bid\x7d", "delete"⟩] true "delete" [("id", .vStr "7")] =
      .confirmationRequired "manual" (some "Careful") "delete" "x_tool" "/x/\x7bid\x7d"
        confirmInstructions ∧
    ∃ m p q b,
      grouped_tool [⟨"DELETE", "/x/\x7bid\x7d", "manual", "Careful"⟩] "x_tool"
        [⟨"DELETE", "/x/\x7bid\x7d", "delete"⟩] true "delete"
        [("confirmed", .vBool true), ("id", .vStr "7")] = .transport m p q b := by
  have h := claim_C1_confirmation_gate
    [⟨"DELETE", "/x/\x7bid\x7d", "manual", "Careful"⟩] "x_tool"
    [⟨"DELETE", "/x/\x7bid\x7d", "delete"⟩] "delete"
    [("id", .vStr "7")] [("confirmed", .vBool true), ("id", .vStr "7")]
    ⟨"DELETE", "/x/\x7bid\x7d", ⟨"manual", some "Careful", false, none⟩⟩
    (by decide) (by decide) (by decide) (by decide)
  exact h

/-- C8: invoking a synthesized grouped operation with an action
discriminator that is not a member action name returns a structured
error enumerating the group's valid action names (the `grouped_tool`
model is a total function, so no exception can escape); the enumerated
list contains exactly the member action names. -/
theorem claim_C8_unknown_action
    (rules : List Rule) (tool : String) (apis : List Api) (action : String)
    (kwargs : List (String × Value))
    (hunknown : action ∉ apis.map Api.action) :
    grouped_tool rules tool apis true action kwargs =
      .unknownAction ("Unknown action: " ++ action)
        (sortStrings ((buildRegistry rules apis).map Prod.fst))
        ("Use one of: " ++
          joinSep ", " (sortStrings ((buildRegistry rules apis).map Prod.fst))) ∧
    (∀ a, a ∈ sortStrings ((buildRegistry rules apis).map Prod.fst) ↔
      a ∈ apis.map Api.action) := by
  have hnone : lookupKV (buildRegistry rules apis) action = none :=
    (lookupKV_eq_none_iff _ _).mpr (fun hc => hunknown ((mem_keys_buildRegistry _ _ _).mp hc))
  constructor
  · simp only [grouped_tool, Bool.not_true, Bool.false_eq_true, if_false, hnone]
  · intro a
    rw [mem_sortStrings, mem_keys_buildRegistry]

/-- Witness for C8: `action="bogus"` against a two-action group. -/
theorem claim_C8_unknown_action_witness :
    grouped_tool [] "x_tool" [⟨"GET", "/x", "get"⟩, ⟨"POST", "/x/search", "search"⟩] true
      "bogus" [] =
      .unknownAction "Unknown action: bogus"
        (sortStrings ((buildRegistry [] [⟨"GET", "/x", "get"⟩,
          ⟨"POST", "/x/search", "search"⟩]).map Prod.fst))
        ("Use one of: " ++ joinSep ", " (sortStrings ((buildRegistry []
          [⟨"GET", "/x", "get"⟩, ⟨"POST", "/x/search", "search"⟩]).map Prod.fst))) ∧
    (∀ a, a ∈ sortStrings ((buildRegistry [] [⟨"GET", "/x", "get"⟩,
        ⟨"POST", "/x/search", "search"⟩]).map Prod.fst) ↔
      a ∈ [⟨"GET", "/x", "get"⟩, ⟨"POST", "/x/search", "search"⟩].map Api.action) :=
  claim_C8_unknown_action [] "x_tool" [⟨"GET", "/x", "get"⟩, ⟨"POST", "/x/search", "search"⟩]
    "bogus" [] (by decide)

/-- C10: for a member action whose tier is `none`, a caller-supplied
`confirmed` parameter is not consumed by the confirmation check (the
`and` short-circuits before the pop) and, being non-null and not a path
parameter, is forwarded to transport as a query parameter named
`confirmed`; the flag is stripped from the bag only when the action's
tier is not `none` (second conjunct: for any action of the group whose
tier is not `none`, a truthy `confirmed` is consumed and never appears
among the query parameters). -/
theorem claim_C10_confirmed_forwarding
    (rules : List Rule) (tool : String) (apis : List Api) (action : String)
    (kwargs : List (String × Value)) (info : ActionInfo) (v : Value)
    (hlook : lookupKV (buildRegistry rules apis) action = some info)
    (hnone : info.confirmation.level = "none")
    (hconf : lookupKw kwargs "confirmed" = some v)
    (hv : v ≠ .vNone)
    (hnp : "confirmed" ∉ findPlaceholders info.path) :
    (∃ q b, grouped_tool rules tool apis true action kwargs =
        .transport info.method (substPath info.path kwargs).1 (some q) b ∧
        ("confirmed", v) ∈ q) ∧
    (∀ (action2 : String) (kwargs2 : List (String × Value)) (info2 : ActionInfo),
      lookupKV (buildRegistry rules apis) action2 = some info2 →
      info2.confirmation.level ≠ "none" →
      (kwargs2.map Prod.fst).Nodup →
      lookupKw kwargs2 "confirmed" = some (Value.vBool true) →
      ∃ m p q b, grouped_tool rules tool apis true action2 kwargs2 = .transport m p q b ∧
        ∀ pr ∈ q.getD [], pr.1 ≠ "confirmed") := by
  constructor
  · have hbne : (info.confirmation.level != "none") = false := by simp [bne, hnone]
    have hgt : grouped_tool rules tool apis true action kwargs =
        buildRequest action info kwargs := by
      simp only [grouped_tool, Bool.not_true, Bool.false_eq_true, if_false, hlook, hbne]
    have hmem0 : ("confirmed", v) ∈ kwargs := mem_of_lookupKw hconf
    have hmem1 : ("confirmed", v) ∈ (substPath info.path kwargs).2 :=
      mem_substFold_of_ne hmem0 hnp
    have hmem2 : ("confirmed", v) ∈
        (popKw (substPath info.path kwargs).2 "filter_expression").2 :=
      mem_popKw_of_ne hmem1 (show ("confirmed" : String) ≠ "filter_expression" by decide)
    have hmem3 : ("confirmed", v) ∈
        (popKw (popKw (substPath info.path kwargs).2 "filter_expression").2 "body").2 :=
      mem_popKw_of_ne hmem2 (show ("confirmed" : String) ≠ "body" by decide)
    have hmemq : ("confirmed", v) ∈
        ((popKw (popKw (substPath info.path kwargs).2 "filter_expression").2 "body").2.filter
          (fun p => !(p.2 == Value.vNone))) := by
      refine List.mem_filter.mpr ⟨hmem3, ?_⟩
      simp [hv]
    have hne : (((popKw (popKw (substPath info.path kwargs).2 "filter_expression").2
        "body").2.filter (fun p => !(p.2 == Value.vNone))).isEmpty) = false := by
      cases hq : ((popKw (popKw (substPath info.path kwargs).2 "filter_expression").2
          "body").2.filter (fun p => !(p.2 == Value.vNone))) with
      | nil => rw [hq] at hmemq; simp at hmemq
      | cons a l => rfl
    obtain ⟨jb, hjb⟩ := buildRequest_eq_transport action info kwargs
    refine ⟨_, jb, ?_, hmemq⟩
    rw [hgt, hjb, if_neg (by simp [hne])]
  · intro action2 kwargs2 info2 hlook2 htier2 hnd hc2
    have hb2 : (info2.confirmation.level != "none") = true := bne_iff_ne.mpr htier2
    have hpop2 : (popKw kwargs2 "confirmed").1 = some (Value.vBool true) :=
      (popKw_fst_eq_lookup _ _).trans hc2
    have hgt2 : grouped_tool rules tool apis true action2 kwargs2 =
        buildRequest action2 info2 (popKw kwargs2 "confirmed").2 := by
      simp only [grouped_tool, Bool.not_true, Bool.false_eq_true, if_false, hlook2]
      rw [if_pos hb2, if_neg (by simp [hpop2, Value.truthy])]
    have habs : ∀ pr ∈ (popKw kwargs2 "confirmed").2, pr.1 ≠ "confirmed" :=
      popKw_keys_nodup_absent hnd
    rw [hgt2]
    simp only [buildRequest]
    refine ⟨_, _, _, _, rfl, ?_⟩
    intro pr hpr
    split at hpr
    · simp at hpr
    · simp only [Option.getD_some] at hpr
      have h1 := List.mem_filter.mp hpr
      have h2 := mem_popKw_snd h1.1
      have h3 := mem_popKw_snd h2
      have h4 := mem_of_mem_substFold h3
      exact habs pr h4

/-- Witness for C10: a tier-`none` list action forwards `confirmed=True`
as a query parameter; a tier-`manual` delete with `confirmed=True`
reaches transport with the flag stripped. -/
theorem claim_C10_confirmed_forwarding_witness :
    (∃ q b, grouped_tool [⟨"DELETE", "/x/\x7bid\x7d", "manual", "Careful"⟩] "x_tool"
        [⟨"GET", "/x", "list"⟩, ⟨"DELETE", "/x/\x7bid\x7d", "delete"⟩] true "list"
        [("confirmed", .vBool true)] =
        .transport "GET"
          (substPath "/x" [("confirmed", .vBool true)]).1 (some q) b ∧
        ("confirmed", .vBool true) ∈ q) ∧
    (∀ (action2 : String) (kwargs2 : List (String × Value)) (info2 : ActionInfo),
      lookupKV (buildRegistry [⟨"DELETE", "/x/\x7bid\x7d", "manual", "Careful"⟩]
        [⟨"GET", "/x", "list"⟩, ⟨"DELETE", "/x/\x7bid\x7d", "delete"⟩]) action2 = some info2 →
      info2.confirmation.level ≠ "none" →
      (kwargs2.map Prod.fst).Nodup →
      lookupKw kwargs2 "confirmed" = some (Value.vBool true) →
      ∃ m p q b, grouped_tool [⟨"DELETE", "/x/\x7bid\x7d", "manual", "Careful"⟩] "x_tool"
          [⟨"GET", "/x", "list"⟩, ⟨"DELETE", "/x/\x7bid\x7d", "delete"⟩] true action2 kwargs2 =
          .transport m p q b ∧
        ∀ pr ∈ q.getD [], pr.1 ≠ "confirmed") :=
  claim_C10_confirmed_forwarding
    [⟨"DELETE", "/x/\x7bid\x7d", "manual", "Careful"⟩] "x_tool"
    [⟨"GET", "/x", "list"⟩, ⟨"DELETE", "/x/\x7bid\x7d", "delete"⟩] "list"
    [("confirmed", .vBool true)]
    ⟨"GET", "/x", ⟨"none", none, false, none⟩⟩ (.vBool true)
    (by decide) (by decide) (by decide) (by decide) (by decide)

/-- C2 counterexample: the runtime-synthesized grouped operation,
invoked with `action="get"` while omitting the path parameter `jobId`,
does not return a missing-parameter error — it issues the transport
call with the `\x7bjobId\x7d` placeholder left unsubstituted in the
path. -/
theorem claim_C2_counterexample :
    grouped_tool [] "job_tool" [⟨"GET", "/jobs/\x7bjobId\x7d", "get"⟩] true "get" [] =
      .transport "GET" "/jobs/\x7bjobId\x7d" none none := by
  decide

/-- C2 (amended): the structured error
`Missing required parameter: job_id for action get` (without a
transport call) is produced by the statically generated unified tools —
here `job_tool` — which check each required path parameter for `None`
before substitution; the runtime-synthesized grouped operation performs
no such check and forwards the path with the placeholder unsubstituted
(second conjunct: with an empty parameter bag the transport is called
on the unmodified path template). -/
theorem claim_C2_missing_parameter_amended :
    (∀ (cursor fe : Option String) (limit : Option Int) (sort : Option String),
      job_tool "get" cursor fe none limit sort =
        .error "Missing required parameter: job_id for action get") ∧
    (∀ (rules : List Rule) (tool : String) (apis : List Api) (action : String)
      (info : ActionInfo),
      lookupKV (buildRegistry rules apis) action = some info →
      info.confirmation.level = "none" →
      grouped_tool rules tool apis true action [] =
        .transport info.method info.path none none) := by
  constructor
  · intro cursor fe limit sort
    rfl
  · intro rules tool apis action info hlook hnone
    have hbne : (info.confirmation.level != "none") = false := by simp [bne, hnone]
    simp only [grouped_tool, Bool.not_true, Bool.false_eq_true, if_false, hlook, hbne]
    simp [buildRequest, substPath, substFold_nil_bag, popKw, Value.truthy]

/-- Witness for C2 (amended): `job_tool(action="get")` without `job_id`
returns the structured error; a one-action group with an empty bag
calls transport on the raw template. -/
theorem claim_C2_missing_parameter_amended_witness :
    job_tool "get" none none none none none =
      .error "Missing required parameter: job_id for action get" ∧
    grouped_tool [] "env_tool" [⟨"DELETE", "/envs/\x7bid\x7d", "delete"⟩] true "delete" [] =
      .transport "DELETE" "/envs/\x7bid\x7d" none none :=
  ⟨claim_C2_missing_parameter_amended.1 none none none none,
   claim_C2_missing_parameter_amended.2 [] "env_tool" [⟨"DELETE", "/envs/\x7bid\x7d", "delete"⟩]
     "delete" ⟨"DELETE", "/envs/\x7bid\x7d", ⟨"none", none, false, none⟩⟩
     (by decide) (by decide)⟩

/-- C5: classification scans the loaded rules in declaration order and
returns the first rule whose method pattern (wildcard `*` or exact
case-sensitive match) and path pattern both match; with rules
`[DELETE /x/\x7bid\x7d → manual, * /x/\x7bid\x7d → standard]`,
`classify("DELETE", "/x/7")` is `manual`, not `standard`; with no
matching rule the tier is `none`. -/
theorem claim_C5_first_match_scanning :
    (∀ (rules : List Rule) (method path : String),
      get_confirmation_for_operation rules method path =
        match rules.find? (fun r => ruleMatches r method path) with
        | some r => parseRule r
        | none => noConfirmation) ∧
    get_confirmation_for_operation
      [⟨"DELETE", "/x/\x7bid\x7d", "manual", "m1"⟩, ⟨"*", "/x/\x7bid\x7d", "standard", "m2"⟩]
      "DELETE" "/x/7" = ⟨"manual", some "m1", false, none⟩ ∧
    (∀ (rules : List Rule) (method path : String),
      rules.find? (fun r => ruleMatches r method path) = none →
      (get_confirmation_for_operation rules method path).level = "none") := by
  refine ⟨get_confirmation_eq_find, by decide, ?_⟩
  intro rules method path h
  rw [get_confirmation_eq_find, h]
  rfl

/-- Witness for C5: the empty rule list has no matching rule, so the
tier is `none`. -/
theorem claim_C5_first_match_scanning_witness :
    (get_confirmation_for_operation [] "GET" "/x").level = "none" :=
  claim_C5_first_match_scanning.2.2 [] "GET" "/x" (by decide)

/-- C6: `_path_matches` succeeds exactly when the request path fully
matches (anchored at both ends) the rule pattern with every
`\x7bidentifier\x7d` segment replaced by a nonempty non-slash wildcard
(the declarative relation `TokMatches`); in particular
`/vdbs/\x7bid\x7d/delete` matches `/vdbs/abc-123/delete` and not
`/vdbs/abc-123/enable`. -/
theorem claim_C6_path_template_matching :
    (∀ path pattern : String,
      path_matches path pattern = true ↔ TokMatches (ruleToks pattern.data) path.data) ∧
    path_matches "/vdbs/abc-123/delete" "/vdbs/\x7bid\x7d/delete" = true ∧
    path_matches "/vdbs/abc-123/enable" "/vdbs/\x7bid\x7d/delete" = false :=
  ⟨fun _ pattern => tokMatch_iff (ruleToks pattern.data) _, by decide, by decide⟩

/-- C9: `disable_toolset` in the `Idle` state returns
`already_minimal`, removes nothing from the host (no removal events, so
no capability-list notification), and leaves the state unchanged;
consequently a second `disable_toolset` after any first one is a
no-op. -/
theorem claim_C9_idempotent_disable (s : RegState) (hidle : s.current = none) :
    disable_toolset s = (s, .alreadyMinimal, []) ∧
    (∀ s' : RegState, (disable_toolset (disable_toolset s').1).1 = (disable_toolset s').1) := by
  have key : ∀ x : RegState, x.current = none → disable_toolset x = (x, .alreadyMinimal, []) := by
    intro x hx
    unfold disable_toolset
    rw [hx]
  refine ⟨key s hidle, ?_⟩
  intro s'
  have hnone : (disable_toolset s').1.current = none := by
    cases hc : s'.current with
    | none => simp [disable_toolset, hc]
    | some x => simp [disable_toolset, hc]
  rw [key _ hnone]

/-- Witness for C9 at the startup state. -/
theorem claim_C9_idempotent_disable_witness :
    disable_toolset ⟨none, [], metaToolNames⟩ =
      (⟨none, [], metaToolNames⟩, .alreadyMinimal, []) ∧
    (∀ s' : RegState, (disable_toolset (disable_toolset s').1).1 = (disable_toolset s').1) :=
  claim_C9_idempotent_disable ⟨none, [], metaToolNames⟩ rfl

/-- C3 counterexample: after a successful `enable_toolset("a")`, an
`enable_toolset("b")` that fails during registration (b's `@inherit:`
parent file is missing) reaches a state in which `a` is still the
active toolset but none of its group names are registered — the stated
invariant is violated in a reachable state. -/
theorem claim_C3_counterexample :
    Reachable metaToolNames availAB loadAB true stateAfterAB ∧
    stateAfterAB.current = some "a" ∧
    stateAfterAB.registered = [] ∧
    activeGroupNames loadAB stateAfterAB.current = ["g1"] ∧
    ¬("g1" ∈ stateAfterAB.registered ↔ "g1" ∈ activeGroupNames loadAB stateAfterAB.current) := by
  refine ⟨?_, by decide, by decide, by decide, by decide⟩
  exact Reachable.enableStep _ "b" (Reachable.enableStep _ "a" Reachable.init)

/-- C3 (amended): provided every available bundle loads successfully,
with nonempty groups whose names avoid the startup (meta) tool names,
the registered domain-tool name set equals exactly the group-name set
of the active bundle in every reachable state (empty when none is
active); in particular after `enableBundle("a")` then
`enableBundle("b")` the registered set is exactly b's group names and
none of a's remain. -/
theorem claim_C3_registry_invariant_amended (initTools avail : List String)
    (load : String → Except String Grouped) (appInit : Bool) (s : RegState)
    (hload : ∀ n, n ∈ avail →
      ∃ g, load n = .ok g ∧ ∀ e ∈ g, e.2.apis ≠ [] ∧ e.1 ∉ initTools)
    (hs : Reachable initTools avail load appInit s) :
    ∀ n, n ∈ s.registered ↔ n ∈ activeGroupNames load s.current :=
  (reachable_regInv hload hs).1

/-- Witness for C3 (amended): in the well-behaved directory `fsGood`,
after enabling `a` then `b`, membership of `g2` (b's group) and of `g1`
(a's group) in the registered set agrees with the active bundle's
group-name set. -/
theorem claim_C3_registry_invariant_amended_witness :
    ("g2" ∈ stateGoodAB.registered ↔ "g2" ∈ activeGroupNames loadGood stateGoodAB.current) ∧
    ("g1" ∈ stateGoodAB.registered ↔ "g1" ∈ activeGroupNames loadGood stateGoodAB.current) := by
  have hload : ∀ n, n ∈ availGood →
      ∃ g, loadGood n = .ok g ∧ ∀ e ∈ g, e.2.apis ≠ [] ∧ e.1 ∉ metaToolNames := by
    intro n hn
    have h2 : n = "a" ∨ n = "b" := by simpa [availGood] using hn
    rcases h2 with rfl | rfl
    · exact ⟨[("g1", ⟨"G", [⟨"GET", "/x", "get"⟩]⟩)], by decide, by decide⟩
    · exact ⟨[("g2", ⟨"H", [⟨"POST", "/y/search", "search"⟩]⟩)], by decide, by decide⟩
  have hreach : Reachable metaToolNames availGood loadGood true stateGoodAB :=
    Reachable.enableStep _ "b" (Reachable.enableStep _ "a" Reachable.init)
  exact ⟨claim_C3_registry_invariant_amended metaToolNames availGood loadGood true stateGoodAB
      hload hreach "g2",
    claim_C3_registry_invariant_amended metaToolNames availGood loadGood true stateGoodAB
      hload hreach "g1"⟩

/-- C4 counterexample: an `enable_toolset("b")` call that returns an
error (b's registration raises because its inheritance parent is
missing) does not leave the registry unchanged: the previously active
`a` loses its registered tools while remaining marked active. -/
theorem claim_C4_counterexample :
    (enable_toolset availAB loadAB true stateAfterA "b").2 =
      .errException "Toolset 'b' inherits from 'zzz' but parent toolset file does not exist" ∧
    (enable_toolset availAB loadAB true stateAfterA "b").1 ≠ stateAfterA ∧
    stateAfterA.registered = ["g1"] ∧
    stateAfterAB.registered = [] := by
  exact ⟨by decide, by decide, by decide, by decide⟩

/-- C4 (amended): an `enable_toolset` error leaves the state unchanged
when the bundle name is unknown, when the app is uninitialized, or when
registration fails with no bundle active; but when a bundle `x` was
active and registration fails, the error response is returned with `x`
still recorded as active and all of `x`'s tools already unregistered
(the registered list emptied). -/
theorem claim_C4_enable_error_amended (avail : List String)
    (load : String → Except String Grouped) (appInit : Bool) (s : RegState) (name : String) :
    (avail.contains name = false →
      enable_toolset avail load appInit s name = (s, .errUnknown avail)) ∧
    (avail.contains name = true → appInit = false →
      enable_toolset avail load appInit s name = (s, .errNotInit)) ∧
    (∀ e, avail.contains name = true → appInit = true → s.current = none →
      load name = .error e →
      enable_toolset avail load appInit s name = (s, .errException e)) ∧
    (∀ e x, avail.contains name = true → appInit = true → s.current = some x →
      load name = .error e →
      enable_toolset avail load appInit s name =
        (⟨some x, [], s.appTools.filter (fun t => !(s.registered.contains t))⟩,
          .errException e)) := by
  refine ⟨?_, ?_, ?_, ?_⟩
  · intro h
    simp only [enable_toolset, h, Bool.not_false, if_true]
  · intro h1 h2
    subst h2
    simp only [enable_toolset, h1, Bool.not_true, Bool.false_eq_true, if_false,
      Bool.not_false, if_true]
  · intro e h1 h2 hcur herr
    subst h2
    simp only [enable_toolset, h1, Bool.not_true, Bool.false_eq_true, if_false, hcur,
      Option.isSome_none, registerToolsetTools, herr]
  · intro e x h1 h2 hcur herr
    subst h2
    simp only [enable_toolset, h1, Bool.not_true, Bool.false_eq_true, if_false, hcur,
      Option.isSome_some, if_true, disableCurrentInternal, registerToolsetTools, herr]

/-- Witness for C4 (amended): an unknown name leaves the startup state
unchanged; a registration failure from the startup state (no previous
bundle) also leaves it unchanged. -/
theorem claim_C4_enable_error_amended_witness :
    enable_toolset availAB loadAB true ⟨none, [], metaToolNames⟩ "zz" =
      (⟨none, [], metaToolNames⟩, .errUnknown availAB) ∧
    enable_toolset availAB loadAB true ⟨none, [], metaToolNames⟩ "b" =
      (⟨none, [], metaToolNames⟩,
        .errException
          "Toolset 'b' inherits from 'zzz' but parent toolset file does not exist") :=
  ⟨(claim_C4_enable_error_amended availAB loadAB true ⟨none, [], metaToolNames⟩ "zz").1
      (by decide),
   (claim_C4_enable_error_amended availAB loadAB true ⟨none, [], metaToolNames⟩ "b").2.2.1
      "Toolset 'b' inherits from 'zzz' but parent toolset file does not exist"
      (by decide) rfl rfl (by decide)⟩

/-- C7 counterexample: duplicate `(method, path, action)` triples
arising from an inheritance merge are *not* ignored by
`load_toolset_grouped_apis` — re-declaring a parent's API line in the
child leaves the triple twice in the merged member list. -/
theorem claim_C7_counterexample :
    load_toolset_grouped_apis fsDup 3 "b" =
      .ok [("t", ⟨"d", [⟨"GET", "/x", "get"⟩, ⟨"GET", "/x", "get"⟩]⟩)] ∧
    load_toolset_grouped_apis fsDup 3 "a" =
      .ok [("t", ⟨"d", [⟨"GET", "/x", "get"⟩]⟩)] :=
  ⟨by decide, by decide⟩

/-- C7 (amended): for a bundle `B` whose source contains `@inherit:A`
(and whose load succeeds), every group name of `loadBundle(A)` is a
group name of `loadBundle(B)` and every member of an `A` group is a
member of the same-named `B` group (union semantics, member lists
merged); loading is a pure function of the file system, so re-loading
is identical by construction; duplicate triples from the merge are kept,
not ignored. -/
theorem claim_C7_inheritance_union_amended (fs : FileSys) (fuel : Nat)
    (nameB parent : String) (linesB : List String) (l : String) (gA gB : Grouped)
    (hB : lookupFS fs nameB = some linesB)
    (hl : l ∈ linesB)
    (hstart : pyStartsWith (pyTrim l) "@inherit:" = true)
    (hparent : pyTrim ((pySplit (pyTrim l) ":").getD 1 "") = parent)
    (hA : load_toolset_grouped_apis fs fuel parent = .ok gA)
    (hBok : load_toolset_grouped_apis fs (fuel + 1) nameB = .ok gB) :
    GroupedLe gA gB := by
  simp only [load_toolset_grouped_apis, hB] at hBok
  exact processLines_inherit_sup fs (load_toolset_grouped_apis fs fuel) nameB hA linesB [] none
    gB l hl hstart hparent hBok

/-- Witness for C7 (amended): in `fsDup`, `b` inherits `a`; `a`'s
single group and member are contained in `b`'s load result. -/
theorem claim_C7_inheritance_union_amended_witness :
    GroupedLe [("t", ⟨"d", [⟨"GET", "/x", "get"⟩]⟩)]
      [("t", ⟨"d", [⟨"GET", "/x", "get"⟩, ⟨"GET", "/x", "get"⟩]⟩)] :=
  claim_C7_inheritance_union_amended fsDup 2 "b" "a"
    ["@inherit:a", "# TOOL 1: t - d", "GET|/x|get"] "@inherit:a"
    [("t", ⟨"d", [⟨"GET", "/x", "get"⟩]⟩)]
    [("t", ⟨"d", [⟨"GET", "/x", "get"⟩, ⟨"GET", "/x", "get"⟩]⟩)]
    (by decide) (by decide) (by decide) (by decide) (by decide) (by decide)
